import Mathlib

/-
Shallow embedding of the content-version-system core (src/src/contentDO.ts,
first ContentDO class, together with src/src/types.ts).  Pure state-passing
replaces the Durable Object storage: every operation takes the current
ContentState and returns the result together with the new state, and a
throwing path becomes an Except.error.  The wall clock (new Date()
toISOString) is passed in explicitly as a `now : String` argument.  The
`patch` string of a ContentDiff is produced by the npm `diff` package
(createPatch), outside this repository, and the `hunks` field is always left
empty by the source; no claim concerns either, so both fields are omitted.
-/

namespace ContentVersion

/-- Mirrors the VersionStatus enum of types.ts. -/
inductive VersionStatus where
  | draft
  | published
  | archived
deriving DecidableEq

/-- Mirrors the `changes` record inside ContentDiff (types.ts).  The source
stores plain JS numbers; `additions` is computed without any clamping and can
be negative, so all three counters are embedded as integers. -/
structure ContentChanges where
  additions : Int
  deletions : Int
  totalChanges : Int
  timestamp : String
deriving DecidableEq

/-- Mirrors ContentDiff of types.ts (without the library-computed `patch`
string and the never-populated `hunks` list, see header comment).  The source
field names `from` and `to` are reserved words here, hence the prefix. -/
structure ContentDiff where
  diffFrom : String
  diffTo : String
  changes : ContentChanges
deriving DecidableEq

/-- Mirrors Version of types.ts. -/
structure Version where
  id : Nat
  content : String
  timestamp : String
  message : String
  status : VersionStatus
  diff : Option ContentDiff
deriving DecidableEq

/-- Mirrors Tag of types.ts. -/
structure Tag where
  name : String
  versionId : Nat
  createdAt : String
  updatedAt : Option String
deriving DecidableEq

/-- Mirrors PublishRecord of types.ts. -/
structure PublishRecord where
  versionId : Nat
  publishedAt : String
  publishedBy : String
deriving DecidableEq

/-- Mirrors ContentState of types.ts.  The JS object `tags` is embedded as an
insertion-ordered association list from tag name to Tag. -/
structure ContentState where
  currentVersion : Nat
  versions : List Version
  tags : List (String × Tag)
  content : Option String
  publishHistory : List PublishRecord
deriving DecidableEq

/-- The errors thrown by contentDO.ts, one constructor per message string. -/
inductive ContentError where
  | versionNotFound            -- "Version not found"
  | cannotDeletePublished      -- "Cannot delete published version"
  | tagNotFound                -- "Tag not found"
  | tagAlreadyExists           -- "Tag already exists"
  | newTagNameExists           -- "New tag name already exists"
  | failedToGetUpdatedVersion  -- "Failed to get updated version"
deriving DecidableEq

/-- JS object read `m[k]` on the tags object. -/
def objGet (m : List (String × Tag)) (k : String) : Option Tag :=
  (m.find? (fun p => p.1 = k)).map (fun p => p.2)

/-- JS object write `m[k] = v`: replaces an existing binding in place,
otherwise appends (JS objects keep insertion order). -/
def objSet (m : List (String × Tag)) (k : String) (v : Tag) : List (String × Tag) :=
  if m.any (fun p => p.1 = k) then
    m.map (fun p => if p.1 = k then (k, v) else p)
  else
    m ++ [(k, v)]

/-- JS object delete `delete m[k]`. -/
def objDel (m : List (String × Tag)) (k : String) : List (String × Tag) :=
  m.filter (fun p => ¬ p.1 = k)

/-- The fresh aggregate written on first access when storage is empty. -/
def initialData : ContentState :=
  { currentVersion := 0, versions := [], tags := [], content := none, publishHistory := [] }

/-- Number of segments produced by splitting a string on the newline
character, as in the source `content.split(String.mk [Char.ofNat 10])`; a
string is viewed through its character list, and JS and Lean agree that the
empty string yields one (empty) segment. -/
def lineCount (s : String) : Nat :=
  (s.data.splitOn (Char.ofNat 10)).length

/-- Embeds calculateDetailedDiff (contentDO.ts lines 273-296).  Note that the
source computes `additions: newLines.length - oldLines.length` with no
clamping, while `deletions` is clamped at 0 and `totalChanges` takes the
absolute value. -/
def calculateDetailedDiff (oldContent newContent now : String) : ContentDiff :=
  { diffFrom := oldContent
    diffTo := newContent
    changes :=
      { additions := (lineCount newContent : Int) - (lineCount oldContent : Int)
        deletions := max 0 ((lineCount oldContent : Int) - (lineCount newContent : Int))
        totalChanges := |(lineCount newContent : Int) - (lineCount oldContent : Int)|
        timestamp := now } }

/-- Embeds getNextVersionId (contentDO.ts lines 46-50): Math.max over the
existing ids plus one, or 1 when the ledger is empty.  Ids are naturals, so
folding max from 0 over a nonempty list equals Math.max of its elements. -/
def getNextVersionId (data : ContentState) : Nat :=
  if data.versions.length > 0 then
    ((data.versions.map (fun v => v.id)).foldr max 0) + 1
  else
    1

/-- Embeds createVersion (contentDO.ts lines 53-71).  The source computes a
diff only when `data.content` is truthy, so both null and the empty string
skip the diff. -/
def createVersion (content message now : String) (data : ContentState) :
    Version × ContentState :=
  let newVersion : Version :=
    { id := getNextVersionId data
      content := content
      timestamp := now
      message := message
      status := VersionStatus.draft
      diff :=
        match data.content with
        | some prev => if prev = "" then none else some (calculateDetailedDiff prev content now)
        | none => none }
  (newVersion,
   { data with
       versions := data.versions ++ [newVersion]
       currentVersion := newVersion.id
       content := some content })

/-- Embeds deleteVersion (contentDO.ts lines 86-117): findIndex plus
splice(index, 1) removes the first version with the given id; a published
version cannot be deleted; deleting the current version clears the current
pointer and content; every tag bound to the deleted id is removed. -/
def deleteVersion (id : Nat) (data : ContentState) : Except ContentError ContentState :=
  match data.versions.find? (fun v => v.id = id) with
  | none => Except.error ContentError.versionNotFound
  | some version =>
      if version.status = VersionStatus.published then
        Except.error ContentError.cannotDeletePublished
      else
        let versions2 := data.versions.eraseP (fun v => v.id = id)
        let data2 :=
          if data.currentVersion = id then
            { data with versions := versions2, currentVersion := 0, content := none }
          else
            { data with versions := versions2 }
        Except.ok { data2 with tags := data2.tags.filter (fun p => ¬ p.2.versionId = id) }

/-- Embeds createTag (contentDO.ts lines 136-155): duplicate-name check comes
first, then the version-existence check. -/
def createTag (versionId : Nat) (name now : String) (data : ContentState) :
    Except ContentError (Tag × ContentState) :=
  match objGet data.tags name with
  | some _ => Except.error ContentError.tagAlreadyExists
  | none =>
      match data.versions.find? (fun v => v.id = versionId) with
      | none => Except.error ContentError.versionNotFound
      | some _ =>
          let tag : Tag := { name := name, versionId := versionId, createdAt := now, updatedAt := none }
          Except.ok (tag, { data with tags := objSet data.tags name tag })

/-- Embeds updateTag (contentDO.ts lines 157-180): the old binding is removed
and rebound under the new name with only the `name` field replaced; the other
fields, `updatedAt` included, are spread over unchanged. -/
def updateTag (name newName : String) (data : ContentState) :
    Except ContentError (Tag × ContentState) :=
  match objGet data.tags name with
  | none => Except.error ContentError.tagNotFound
  | some tag =>
      match objGet data.tags newName with
      | some _ => Except.error ContentError.newTagNameExists
      | none =>
          let newTag : Tag := { tag with name := newName }
          Except.ok (newTag, { data with tags := objSet (objDel data.tags name) newName newTag })

/-- Embeds deleteTag (contentDO.ts lines 182-196). -/
def deleteTag (name : String) (data : ContentState) : Except ContentError ContentState :=
  match objGet data.tags name with
  | none => Except.error ContentError.tagNotFound
  | some _ => Except.ok { data with tags := objDel data.tags name }

/-- Embeds publishVersion (contentDO.ts lines 199-227): the target becomes
published, every other version is forced to draft, one PublishRecord is
appended, and the current pointer and content move to the target.  The
publishHistory fallback `if (not data.publishHistory)` of the source is a
no-op here because the embedded history is always a list. -/
def publishVersion (versionId : Nat) (publishedBy now : String) (data : ContentState) :
    Except ContentError (PublishRecord × ContentState) :=
  match data.versions.find? (fun v => v.id = versionId) with
  | none => Except.error ContentError.versionNotFound
  | some version =>
      Except.ok
        ({ versionId := versionId, publishedAt := now, publishedBy := publishedBy },
         { data with
             versions := data.versions.map (fun v =>
               { v with status := if v.id = versionId then VersionStatus.published else VersionStatus.draft })
             publishHistory := data.publishHistory ++
               [{ versionId := versionId, publishedAt := now, publishedBy := publishedBy }]
             currentVersion := versionId
             content := some version.content })

/-- Embeds unpublishVersion (contentDO.ts lines 230-255): the target goes
back to draft, its publish records are filtered out, the current pointer is
cleared when it pointed at the target, and the updated version is looked up
again before being returned. -/
def unpublishVersion (versionId : Nat) (data : ContentState) :
    Except ContentError (Version × ContentState) :=
  match data.versions.find? (fun v => v.id = versionId) with
  | none => Except.error ContentError.versionNotFound
  | some _ =>
      let versions2 := data.versions.map (fun v =>
        { v with status := if v.id = versionId then VersionStatus.draft else v.status })
      let history2 := data.publishHistory.filter (fun r => ¬ r.versionId = versionId)
      let data2 :=
        if data.currentVersion = versionId then
          { data with versions := versions2, publishHistory := history2,
                      currentVersion := 0, content := none }
        else
          { data with versions := versions2, publishHistory := history2 }
      match versions2.find? (fun v => v.id = versionId) with
      | none => Except.error ContentError.failedToGetUpdatedVersion
      | some updated => Except.ok (updated, data2)

/-- Embeds revertTo (contentDO.ts lines 333-355): a fresh version is appended
whose content copies the target and whose status copies the target status;
the diff is taken against the last stored version (empty string fallback). -/
def revertTo (versionId : Nat) (now : String) (data : ContentState) :
    Except ContentError (Version × ContentState) :=
  match data.versions.find? (fun v => v.id = versionId) with
  | none => Except.error ContentError.versionNotFound
  | some targetVersion =>
      let prevContent :=
        match data.versions.getLast? with
        | some lastV => lastV.content
        | none => ""
      let newVersion : Version :=
        { id := getNextVersionId data
          content := targetVersion.content
          timestamp := now
          message := "Reverted to version " ++ toString versionId
          status := targetVersion.status
          diff := some (calculateDetailedDiff prevContent targetVersion.content now) }
      Except.ok (newVersion, { data with versions := data.versions ++ [newVersion] })

/-- One public mutating operation of the aggregate, with the wall-clock
argument recorded where the source reads the clock. -/
inductive Op where
  | create (content message now : String)
  | delete (id : Nat)
  | revert (id : Nat) (now : String)
  | tagCreate (versionId : Nat) (name now : String)
  | tagUpdate (oldName newName : String)
  | tagDelete (name : String)
  | publish (versionId : Nat) (publishedBy now : String)
  | unpublish (versionId : Nat)

/-- Applies one operation to the aggregate; a thrown error happens before the
storage write, so a failing operation leaves the state unchanged. -/
def applyOp (op : Op) (s : ContentState) : ContentState :=
  match op with
  | Op.create c m t => (createVersion c m t s).2
  | Op.delete i =>
      match deleteVersion i s with
      | Except.ok s2 => s2
      | Except.error _ => s
  | Op.revert i t =>
      match revertTo i t s with
      | Except.ok p => p.2
      | Except.error _ => s
  | Op.tagCreate i n t =>
      match createTag i n t s with
      | Except.ok p => p.2
      | Except.error _ => s
  | Op.tagUpdate a b =>
      match updateTag a b s with
      | Except.ok p => p.2
      | Except.error _ => s
  | Op.tagDelete n =>
      match deleteTag n s with
      | Except.ok s2 => s2
      | Except.error _ => s
  | Op.publish i pb t =>
      match publishVersion i pb t s with
      | Except.ok p => p.2
      | Except.error _ => s
  | Op.unpublish i =>
      match unpublishVersion i s with
      | Except.ok p => p.2
      | Except.error _ => s

/-- Runs a sequence of operations from a starting aggregate. -/
def runOps (ops : List Op) (s : ContentState) : ContentState :=
  ops.foldl (fun s op => applyOp op s) s

/-- Number of versions whose status is published. -/
def countPublished (l : List Version) : Nat :=
  l.countP (fun v => v.status = VersionStatus.published)

/-- The ids of the stored versions are pairwise distinct. -/
def idsNodup (l : List Version) : Prop :=
  (l.map (fun v => v.id)).Nodup

/-- Side condition on one step: a revert may only target versions that are
not currently published (any other operation is unrestricted). -/
def RevertGuard : Op → ContentState → Prop
  | Op.revert i _, s => ∀ v ∈ s.versions, v.id = i → ¬ v.status = VersionStatus.published
  | _, _ => True

/-- States reachable from the empty aggregate by guarded operation steps. -/
inductive SafeReach : ContentState → Prop where
  | init : SafeReach initialData
  | step (s : ContentState) (op : Op) (hs : SafeReach s) (hg : RevertGuard op s) :
      SafeReach (applyOp op s)

/-- Invariant carried through the induction for the single-publish claim. -/
def Inv (s : ContentState) : Prop :=
  idsNodup s.versions ∧ countPublished s.versions ≤ 1

/-- Aggregate holding the single version 1 (content "a", draft). -/
def exS1 : ContentState := (createVersion "a" "" "t1" initialData).2

/-- Aggregate holding versions 1 and 2. -/
def exS2 : ContentState := (createVersion "b" "" "t2" exS1).2

/-- Aggregate obtained by creating versions 1 and 2 and then deleting
version 2: the ledger holds only version 1 again. -/
def exS3 : ContentState :=
  runOps [Op.create "a" "" "t1", Op.create "b" "" "t2", Op.delete 2] initialData

/-- Result of reverting aggregate exS1 to version 1. -/
def exRev1 : Version × ContentState :=
  match revertTo 1 "t9" exS1 with
  | Except.ok p => p
  | Except.error _ => ((⟨0, "", "", "", VersionStatus.draft, none⟩ : Version), exS1)

/-- Aggregate obtained by creating version 1, publishing it, and then
reverting to it: the revert copies the published status. -/
def exPubRev : ContentState :=
  runOps [Op.create "a" "" "t1", Op.publish 1 "u" "t2", Op.revert 1 "t3"] initialData

/-- Aggregate obtained by creating versions 1 and 2, publishing 1 then 2
(which demotes 1 to draft), and deleting the now-draft version 1; the
publish history still holds the record for version 1. -/
def exDelHist : ContentState :=
  runOps [Op.create "a" "" "t1", Op.create "b" "" "t2", Op.publish 1 "u" "t3",
          Op.publish 2 "u" "t4", Op.delete 1] initialData

/-- Aggregate holding version 1 tagged "a". -/
def exTagged : ContentState :=
  runOps [Op.create "x" "" "t1", Op.tagCreate 1 "a" "t2"] initialData

/-- Aggregate with versions 1 (draft) and 2 (published) and publish records
for both versions: version 1 was published first and then demoted when
version 2 was published. -/
def exPreDel : ContentState :=
  runOps [Op.create "a" "" "t1", Op.create "b" "" "t2", Op.publish 1 "u" "t3",
          Op.publish 2 "u" "t4"] initialData

/-- Aggregate holding the single version 1 in published state. -/
def exPub : ContentState :=
  runOps [Op.create "a" "" "t1", Op.publish 1 "u" "t2"] initialData

/- ## List helper lemmas -/

theorem le_foldr_max {l : List Nat} {x : Nat} (hx : x ∈ l) : x ≤ l.foldr max 0 := by
  induction l with
  | nil => cases hx
  | cons a t ih =>
      rw [List.foldr_cons]
      rcases List.mem_cons.mp hx with h | h
      · exact h ▸ le_max_left _ _
      · exact le_trans (ih h) (le_max_right _ _)

theorem countP_congr_local {α : Type} {l : List α} {p q : α → Bool}
    (h : ∀ a ∈ l, p a = q a) : l.countP p = l.countP q := by
  induction l with
  | nil => rfl
  | cons a t ih =>
      rw [List.countP_cons, List.countP_cons, h a (List.mem_cons_self a t),
        ih (fun x hx => h x (List.mem_cons_of_mem _ hx))]

theorem countP_mono_local {α : Type} {l : List α} {p q : α → Bool}
    (h : ∀ a ∈ l, p a = true → q a = true) : l.countP p ≤ l.countP q := by
  induction l with
  | nil => simp
  | cons a t ih =>
      rw [List.countP_cons, List.countP_cons]
      have ht := ih (fun x hx => h x (List.mem_cons_of_mem _ hx))
      by_cases hp : p a = true
      · rw [if_pos hp, if_pos (h a (List.mem_cons_self a t) hp)]
        omega
      · rw [if_neg hp]
        split <;> omega

theorem find?_map_keepPred {α : Type} (g : α → α) {l : List α} {p : α → Bool}
    (hg : ∀ a, p (g a) = p a) : (l.map g).find? p = (l.find? p).map g := by
  induction l with
  | nil => rfl
  | cons a t ih =>
      by_cases hpa : p a = true
      · rw [List.map_cons, List.find?_cons_of_pos _ (by rw [hg]; exact hpa),
          List.find?_cons_of_pos _ hpa]
        rfl
      · rw [List.map_cons, List.find?_cons_of_neg _ (by rw [hg]; exact hpa),
          List.find?_cons_of_neg _ hpa, ih]

/- ## Facts about getNextVersionId and the invariant pieces -/

theorem getNextVersionId_gt {s : ContentState} {v : Version} (hv : v ∈ s.versions) :
    v.id < getNextVersionId s := by
  unfold getNextVersionId
  rw [if_pos (List.length_pos.mpr (List.ne_nil_of_mem hv))]
  have h1 : v.id ≤ (s.versions.map (fun v => v.id)).foldr max 0 :=
    le_foldr_max (List.mem_map_of_mem _ hv)
  omega

theorem idsNodup_append {l : List Version} {nv : Version} (h : idsNodup l)
    (hf : ∀ v ∈ l, v.id < nv.id) : idsNodup (l ++ [nv]) := by
  unfold idsNodup at h ⊢
  rw [List.map_append, List.nodup_append]
  refine ⟨h, List.nodup_singleton _, ?_⟩
  intro a ha hb
  rw [List.map_singleton, List.mem_singleton] at hb
  subst hb
  rcases List.mem_map.mp ha with ⟨v, hv, hvid⟩
  exact absurd hvid (Nat.ne_of_lt (hf v hv))

theorem idsNodup_map_keepId {l : List Version} {g : Version → Version}
    (hg : ∀ v, (g v).id = v.id) (h : idsNodup l) : idsNodup (l.map g) := by
  unfold idsNodup at h ⊢
  rw [List.map_map]
  have hfun : ((fun v => v.id) ∘ g) = fun v => v.id := funext fun v => hg v
  rw [hfun]
  exact h

theorem countPublished_append {l : List Version} {nv : Version}
    (h : ¬ nv.status = VersionStatus.published) :
    countPublished (l ++ [nv]) = countPublished l := by
  unfold countPublished
  rw [List.countP_append]
  simp [List.countP_cons, h]

theorem countPublished_sublist {l₁ l₂ : List Version} (h : l₁.Sublist l₂) :
    countPublished l₁ ≤ countPublished l₂ := by
  unfold countPublished
  exact h.countP_le _

theorem countP_id_le_one {l : List Version} (h : idsNodup l) (i : Nat) :
    l.countP (fun v => v.id = i) ≤ 1 := by
  unfold idsNodup at h
  induction l with
  | nil => simp
  | cons a t ih =>
      rw [List.map_cons, List.nodup_cons] at h
      rw [List.countP_cons]
      by_cases ha : a.id = i
      · have ht : t.countP (fun v => v.id = i) = 0 := by
          rw [List.countP_eq_zero]
          intro v hv hvp
          rw [decide_eq_true_eq] at hvp
          have : a.id ∈ t.map (fun v => v.id) := by
            rw [ha, ← hvp]
            exact List.mem_map_of_mem _ hv
          exact h.1 this
        rw [ht]
        simp [ha]
      · rw [if_neg (by simpa using ha)]
        simpa using ih h.2

theorem countPublished_publishMap {l : List Version} (h : idsNodup l) (i : Nat) :
    countPublished (l.map (fun v =>
      { v with status := if v.id = i then VersionStatus.published else VersionStatus.draft })) ≤ 1 := by
  unfold countPublished
  rw [List.countP_map]
  have heq : l.countP ((fun v => decide (v.status = VersionStatus.published)) ∘
      (fun v => { v with status := if v.id = i then VersionStatus.published else VersionStatus.draft }))
      = l.countP (fun v => v.id = i) := by
    apply countP_congr_local
    intro v _
    by_cases hv : v.id = i <;> simp [Function.comp, hv]
  rw [heq]
  exact countP_id_le_one h i

theorem countPublished_unpublishMap (l : List Version) (i : Nat) :
    countPublished (l.map (fun v =>
      { v with status := if v.id = i then VersionStatus.draft else v.status })) ≤
      countPublished l := by
  unfold countPublished
  rw [List.countP_map]
  apply countP_mono_local
  intro v _ hp
  by_cases hv : v.id = i
  · simp [Function.comp, hv] at hp
  · simpa [Function.comp, hv] using hp

/- ## Characterizations of the operations -/

theorem find?_id_eq_none {l : List Version} {i : Nat} (h : ∀ v ∈ l, v.id ≠ i) :
    l.find? (fun v => v.id = i) = none := by
  rw [List.find?_eq_none]
  intro v hv
  simp [h v hv]

theorem find?_id_some_id {l : List Version} {i : Nat} {tgt : Version}
    (h : l.find? (fun v => v.id = i) = some tgt) : tgt.id = i := by
  have := List.find?_some h
  simpa using this

theorem deleteVersion_err_of_absent {i : Nat} {s : ContentState}
    (h : ∀ v ∈ s.versions, v.id ≠ i) :
    deleteVersion i s = Except.error ContentError.versionNotFound := by
  unfold deleteVersion
  rw [find?_id_eq_none h]

theorem deleteVersion_err_of_none {i : Nat} {s : ContentState}
    (hf : s.versions.find? (fun v => v.id = i) = none) :
    deleteVersion i s = Except.error ContentError.versionNotFound := by
  unfold deleteVersion
  rw [hf]

theorem deleteVersion_conflict {i : Nat} {s : ContentState} {tgt : Version}
    (hf : s.versions.find? (fun v => v.id = i) = some tgt)
    (hp : tgt.status = VersionStatus.published) :
    deleteVersion i s = Except.error ContentError.cannotDeletePublished := by
  simp only [deleteVersion, hf, if_pos hp]

theorem deleteVersion_ok_char {i : Nat} {s : ContentState} {tgt : Version}
    (hf : s.versions.find? (fun v => v.id = i) = some tgt)
    (hp : ¬ tgt.status = VersionStatus.published) :
    ∃ s2, deleteVersion i s = Except.ok s2
      ∧ s2.versions = s.versions.eraseP (fun v => v.id = i)
      ∧ s2.tags = s.tags.filter (fun p => ¬ p.2.versionId = i)
      ∧ s2.publishHistory = s.publishHistory
      ∧ s2.currentVersion = (if s.currentVersion = i then 0 else s.currentVersion)
      ∧ s2.content = (if s.currentVersion = i then none else s.content) := by
  simp only [deleteVersion, hf, if_neg hp]
  by_cases hc : s.currentVersion = i
  · simp [hc]
  · simp [hc]

theorem deleteVersion_ok_inv {i : Nat} {s s2 : ContentState}
    (h : deleteVersion i s = Except.ok s2) :
    ∃ tgt, s.versions.find? (fun v => v.id = i) = some tgt
      ∧ ¬ tgt.status = VersionStatus.published := by
  cases hf : s.versions.find? (fun v => v.id = i) with
  | none =>
      rw [deleteVersion_err_of_none hf] at h
      exact Except.noConfusion h
  | some tgt =>
      by_cases hp : tgt.status = VersionStatus.published
      · rw [deleteVersion_conflict hf hp] at h
        exact Except.noConfusion h
      · exact ⟨tgt, rfl, hp⟩

theorem publishVersion_err_of_absent {i : Nat} {pb t : String} {s : ContentState}
    (h : ∀ v ∈ s.versions, v.id ≠ i) :
    publishVersion i pb t s = Except.error ContentError.versionNotFound := by
  unfold publishVersion
  rw [find?_id_eq_none h]

theorem publishVersion_err_of_none {i : Nat} {pb t : String} {s : ContentState}
    (hf : s.versions.find? (fun v => v.id = i) = none) :
    publishVersion i pb t s = Except.error ContentError.versionNotFound := by
  unfold publishVersion
  rw [hf]

theorem publishVersion_ok_char (pb t : String) {i : Nat} {s : ContentState} {tgt : Version}
    (hf : s.versions.find? (fun v => v.id = i) = some tgt) :
    publishVersion i pb t s = Except.ok
      ({ versionId := i, publishedAt := t, publishedBy := pb },
       { s with
           versions := s.versions.map (fun v =>
             { v with status := if v.id = i then VersionStatus.published else VersionStatus.draft })
           publishHistory := s.publishHistory ++
             [{ versionId := i, publishedAt := t, publishedBy := pb }]
           currentVersion := i
           content := some tgt.content }) := by
  unfold publishVersion
  rw [hf]

theorem publishVersion_ok_inv {i : Nat} {pb t : String} {s : ContentState}
    {x : PublishRecord × ContentState}
    (h : publishVersion i pb t s = Except.ok x) :
    ∃ tgt, s.versions.find? (fun v => v.id = i) = some tgt := by
  cases hf : s.versions.find? (fun v => v.id = i) with
  | none =>
      rw [publishVersion_err_of_none hf] at h
      exact Except.noConfusion h
  | some tgt => exact ⟨tgt, rfl⟩

theorem unpublishVersion_err_of_absent {i : Nat} {s : ContentState}
    (h : ∀ v ∈ s.versions, v.id ≠ i) :
    unpublishVersion i s = Except.error ContentError.versionNotFound := by
  unfold unpublishVersion
  rw [find?_id_eq_none h]

theorem unpublishVersion_err_of_none {i : Nat} {s : ContentState}
    (hf : s.versions.find? (fun v => v.id = i) = none) :
    unpublishVersion i s = Except.error ContentError.versionNotFound := by
  unfold unpublishVersion
  rw [hf]

theorem unpublishVersion_ok_char {i : Nat} {s : ContentState} {tgt : Version}
    (hf : s.versions.find? (fun v => v.id = i) = some tgt) :
    ∃ s2, unpublishVersion i s = Except.ok ({ tgt with status := VersionStatus.draft }, s2)
      ∧ s2.versions = s.versions.map (fun v =>
          { v with status := if v.id = i then VersionStatus.draft else v.status })
      ∧ s2.tags = s.tags
      ∧ s2.publishHistory = s.publishHistory.filter (fun r => ¬ r.versionId = i)
      ∧ s2.currentVersion = (if s.currentVersion = i then 0 else s.currentVersion)
      ∧ s2.content = (if s.currentVersion = i then none else s.content) := by
  have htid : tgt.id = i := find?_id_some_id hf
  have hf2 : (s.versions.map (fun v =>
      { v with status := if v.id = i then VersionStatus.draft else v.status })).find?
        (fun v => v.id = i) = some { tgt with status := VersionStatus.draft } := by
    have hkeep : ∀ a : Version,
        (fun v : Version => decide (v.id = i))
          ((fun v : Version =>
            { v with status := if v.id = i then VersionStatus.draft else v.status }) a) =
        (fun v : Version => decide (v.id = i)) a := fun a => rfl
    rw [find?_map_keepPred _ hkeep, hf]
    simp [htid]
  simp only [unpublishVersion, hf, hf2]
  by_cases hc : s.currentVersion = i
  · simp [hc]
  · simp [hc]

theorem unpublishVersion_ok_inv {i : Nat} {s : ContentState} {x : Version × ContentState}
    (h : unpublishVersion i s = Except.ok x) :
    ∃ tgt, s.versions.find? (fun v => v.id = i) = some tgt := by
  cases hf : s.versions.find? (fun v => v.id = i) with
  | none =>
      rw [unpublishVersion_err_of_none hf] at h
      exact Except.noConfusion h
  | some tgt => exact ⟨tgt, rfl⟩

theorem revertTo_err_of_absent {i : Nat} {t : String} {s : ContentState}
    (h : ∀ v ∈ s.versions, v.id ≠ i) :
    revertTo i t s = Except.error ContentError.versionNotFound := by
  unfold revertTo
  rw [find?_id_eq_none h]

theorem revertTo_err_of_none {i : Nat} {t : String} {s : ContentState}
    (hf : s.versions.find? (fun v => v.id = i) = none) :
    revertTo i t s = Except.error ContentError.versionNotFound := by
  unfold revertTo
  rw [hf]

theorem revertTo_ok_char (t : String) {i : Nat} {s : ContentState} {tgt : Version}
    (hf : s.versions.find? (fun v => v.id = i) = some tgt) :
    ∃ nv s2, revertTo i t s = Except.ok (nv, s2)
      ∧ s2 = { s with versions := s.versions ++ [nv] }
      ∧ nv.id = getNextVersionId s
      ∧ nv.content = tgt.content
      ∧ nv.status = tgt.status
      ∧ nv.message = "Reverted to version " ++ toString i := by
  simp only [revertTo, hf]
  exact ⟨_, _, rfl, rfl, rfl, rfl, rfl, rfl⟩

theorem revertTo_ok_inv {i : Nat} {t : String} {s : ContentState} {nv : Version}
    {s2 : ContentState} (h : revertTo i t s = Except.ok (nv, s2)) :
    ∃ tgt, s.versions.find? (fun v => v.id = i) = some tgt
      ∧ nv.id = getNextVersionId s
      ∧ nv.status = tgt.status
      ∧ s2.versions = s.versions ++ [nv] := by
  cases hf : s.versions.find? (fun v => v.id = i) with
  | none =>
      rw [revertTo_err_of_none hf] at h
      exact Except.noConfusion h
  | some tgt =>
      obtain ⟨nv2, s3, hok, hs3, hid, _, hst, _⟩ := revertTo_ok_char t hf
      rw [h] at hok
      have hpq := Except.ok.inj hok
      have h1 : nv = nv2 := congrArg Prod.fst hpq
      have h2 : s2 = s3 := congrArg Prod.snd hpq
      subst h1
      subst h2
      exact ⟨tgt, rfl, hid, hst, by rw [hs3]⟩

/- ## Tag operations leave the version ledger unchanged -/

theorem applyOp_tagCreate_versions (i : Nat) (n t : String) (s : ContentState) :
    (applyOp (Op.tagCreate i n t) s).versions = s.versions := by
  simp only [applyOp]
  unfold createTag
  cases hg : objGet s.tags n with
  | some tg => rfl
  | none =>
      cases hfv : s.versions.find? (fun v => v.id = i) with
      | none => rfl
      | some _ => rfl

theorem applyOp_tagUpdate_versions (a b : String) (s : ContentState) :
    (applyOp (Op.tagUpdate a b) s).versions = s.versions := by
  simp only [applyOp]
  unfold updateTag
  cases h1 : objGet s.tags a with
  | none => rfl
  | some tg =>
      cases h2 : objGet s.tags b with
      | none => rfl
      | some _ => rfl

theorem applyOp_tagDelete_versions (n : String) (s : ContentState) :
    (applyOp (Op.tagDelete n) s).versions = s.versions := by
  simp only [applyOp]
  unfold deleteTag
  cases h1 : objGet s.tags n with
  | none => rfl
  | some _ => rfl

/- ## The invariant is preserved by every guarded step -/

theorem inv_applyOp (op : Op) (s : ContentState) (h : Inv s) (hg : RevertGuard op s) :
    Inv (applyOp op s) := by
  obtain ⟨hn, hc⟩ := h
  cases op with
  | create c m t =>
      have hveq : (createVersion c m t s).2.versions
          = s.versions ++ [(createVersion c m t s).1] := rfl
      have hnp : ¬ (createVersion c m t s).1.status = VersionStatus.published :=
        fun hcon => VersionStatus.noConfusion hcon
      refine ⟨?_, ?_⟩
      · show idsNodup ((createVersion c m t s).2.versions)
        rw [hveq]
        exact idsNodup_append hn (fun v hv => getNextVersionId_gt hv)
      · show countPublished ((createVersion c m t s).2.versions) ≤ 1
        rw [hveq, countPublished_append hnp]
        exact hc
  | delete i =>
      simp only [applyOp]
      cases hd : deleteVersion i s with
      | error e => exact ⟨hn, hc⟩
      | ok s2 =>
          obtain ⟨tgt, hf, hp⟩ := deleteVersion_ok_inv hd
          obtain ⟨s3, hok, hv, _, _, _, _⟩ := deleteVersion_ok_char hf hp
          rw [hd] at hok
          have hs : s2 = s3 := Except.ok.inj hok
          have hv2 : s2.versions = s.versions.eraseP (fun v => v.id = i) := by
            rw [hs]; exact hv
          refine ⟨?_, ?_⟩
          · unfold idsNodup at hn ⊢
            rw [hv2]
            exact List.Nodup.sublist (List.Sublist.map _ (List.eraseP_sublist _)) hn
          · rw [hv2]
            exact le_trans (countPublished_sublist (List.eraseP_sublist _)) hc
  | revert i t =>
      simp only [applyOp]
      cases hr : revertTo i t s with
      | error e => exact ⟨hn, hc⟩
      | ok p =>
          obtain ⟨nv, s2⟩ := p
          obtain ⟨tgt, hf, hid, hst, hvers⟩ := revertTo_ok_inv hr
          have htgt : tgt ∈ s.versions := List.mem_of_find?_eq_some hf
          have htid : tgt.id = i := find?_id_some_id hf
          have hnp : ¬ nv.status = VersionStatus.published := by
            rw [hst]
            exact hg tgt htgt htid
          refine ⟨?_, ?_⟩
          · rw [hvers]
            exact idsNodup_append hn (fun v hv => by rw [hid]; exact getNextVersionId_gt hv)
          · rw [hvers, countPublished_append hnp]
            exact hc
  | tagCreate i n t =>
      have hv := applyOp_tagCreate_versions i n t s
      exact ⟨by rw [hv]; exact hn, by rw [hv]; exact hc⟩
  | tagUpdate a b =>
      have hv := applyOp_tagUpdate_versions a b s
      exact ⟨by rw [hv]; exact hn, by rw [hv]; exact hc⟩
  | tagDelete n =>
      have hv := applyOp_tagDelete_versions n s
      exact ⟨by rw [hv]; exact hn, by rw [hv]; exact hc⟩
  | publish i pb t =>
      simp only [applyOp]
      cases hp2 : publishVersion i pb t s with
      | error e => exact ⟨hn, hc⟩
      | ok p =>
          obtain ⟨pr, s2⟩ := p
          obtain ⟨tgt, hf⟩ := publishVersion_ok_inv hp2
          have hchar := publishVersion_ok_char pb t hf
          rw [hp2] at hchar
          have hpq := Except.ok.inj hchar
          have hs2v : s2.versions = s.versions.map (fun v =>
              { v with status := if v.id = i then VersionStatus.published else VersionStatus.draft }) :=
            congrArg (fun x => x.2.versions) hpq
          refine ⟨?_, ?_⟩
          · rw [hs2v]
            exact idsNodup_map_keepId (fun v => rfl) hn
          · rw [hs2v]
            exact countPublished_publishMap hn i
  | unpublish i =>
      simp only [applyOp]
      cases hu : unpublishVersion i s with
      | error e => exact ⟨hn, hc⟩
      | ok p =>
          obtain ⟨rv, s2⟩ := p
          obtain ⟨tgt, hf⟩ := unpublishVersion_ok_inv hu
          obtain ⟨s3, hok, hv3, _, _, _, _⟩ := unpublishVersion_ok_char hf
          rw [hu] at hok
          have hpq := Except.ok.inj hok
          have hs2 : s2 = s3 := congrArg Prod.snd hpq
          rw [hs2]
          refine ⟨?_, ?_⟩
          · rw [hv3]
            exact idsNodup_map_keepId (fun v => rfl) hn
          · rw [hv3]
            exact le_trans (countPublished_unpublishMap s.versions i) hc

theorem inv_of_safeReach {s : ContentState} (h : SafeReach s) : Inv s := by
  induction h with
  | init => exact ⟨List.nodup_nil, by decide⟩
  | step s op hs hg ih => exact inv_applyOp op s ih hg

/- ## Claim C1 -/

/-- Claim C1 counterexample: version ids ARE reused after a deletion.  From
the empty aggregate, the second create issues id 2; after deleting version 2
the ledger holds only id 1, and the next create issues id 2 again (max
existing id + 1), so the new id is not strictly greater than every id ever
issued. -/
theorem createVersion_reuses_id_after_delete :
    (createVersion "b" "" "t2" exS1).1.id = 2
      ∧ exS3.versions.map (fun v => v.id) = [1]
      ∧ (createVersion "c" "" "t4" exS3).1.id = 2 :=
  ⟨rfl, rfl, rfl⟩

/-- Claim C1 (amended): every newly created version, whether made by
createVersion or by a successful revertTo, receives an id strictly greater
than every id currently present in the ledger (max of the existing ids plus
one, or 1 when the ledger is empty); ids of deleted versions can be reused
once the maximal id has been deleted. -/
theorem created_id_gt_current_ids (s : ContentState) (c m now : String) (vid : Nat) :
    (∀ v ∈ s.versions, v.id < (createVersion c m now s).1.id)
  ∧ (∀ nv s2, revertTo vid now s = Except.ok (nv, s2) → ∀ v ∈ s.versions, v.id < nv.id) := by
  constructor
  · intro v hv
    exact getNextVersionId_gt hv
  · intro nv s2 hr v hv
    obtain ⟨tgt, hf, hid, _, _⟩ := revertTo_ok_inv hr
    rw [hid]
    exact getNextVersionId_gt hv

/-- Witness for created_id_gt_current_ids at a concrete aggregate: both a
create and a revert on the one-version ledger produce an id above 1. -/
theorem created_id_gt_current_ids_witness :
    1 < (createVersion "b" "" "t2" exS1).1.id ∧ 1 < exRev1.1.id := by
  constructor
  · exact (created_id_gt_current_ids exS1 "b" "" "t2" 1).1
      ⟨1, "a", "t1", "", VersionStatus.draft, none⟩ (by decide)
  · exact (created_id_gt_current_ids exS1 "x" "" "t9" 1).2 exRev1.1 exRev1.2 rfl
      ⟨1, "a", "t1", "", VersionStatus.draft, none⟩ (by decide)

/- ## Claim C2 -/

/-- Claim C2 counterexample: for oldText with two lines and newText with one
line the code returns additions = -1, not the claimed
max(0, newLineCount - oldLineCount) = 0. -/
theorem calculateDetailedDiff_negative_additions :
    (calculateDetailedDiff "a\nb" "c" "tc").changes.additions = -1
      ∧ (calculateDetailedDiff "a\nb" "c" "tc").changes.additions ≠
          max 0 ((lineCount "c" : Int) - (lineCount "a\nb" : Int)) := by
  exact ⟨by decide, by decide⟩

/-- Claim C2 (amended): the diff statistics are pure line-count deltas:
additions = newLineCount - oldLineCount (clamped nowhere, hence possibly
negative), deletions = max(0, oldLineCount - newLineCount), totalChanges =
abs(newLineCount - oldLineCount); in particular two one-line strings with
different text yield additions = 0, deletions = 0, totalChanges = 0. -/
theorem calculateDetailedDiff_changes_formula (oldText newText now : String) :
    (calculateDetailedDiff oldText newText now).changes.additions
        = (lineCount newText : Int) - (lineCount oldText : Int)
  ∧ (calculateDetailedDiff oldText newText now).changes.deletions
        = max 0 ((lineCount oldText : Int) - (lineCount newText : Int))
  ∧ (calculateDetailedDiff oldText newText now).changes.totalChanges
        = |(lineCount newText : Int) - (lineCount oldText : Int)|
  ∧ (calculateDetailedDiff "hello" "world" now).changes.additions = 0
  ∧ (calculateDetailedDiff "hello" "world" now).changes.deletions = 0
  ∧ (calculateDetailedDiff "hello" "world" now).changes.totalChanges = 0 :=
  ⟨rfl, rfl, rfl, rfl, rfl, rfl⟩

/- ## Claim C3 -/

/-- Claim C3 counterexample: reverting to a published version copies its
published status, so after create, publish 1, revert 1 the ledger holds two
published versions — the single-publish invariant fails on an unrestricted
operation sequence. -/
theorem revert_published_breaks_single_publish :
    ¬ countPublished exPubRev.versions ≤ 1 := by decide

/-- Claim C3 (amended): in every aggregate state reachable from the empty
aggregate by public operations in which revertTo is only ever applied to
versions that are not published, at most one version has status published.
(Reverting to a published version copies the published status onto the new
version and breaks the invariant, see the counterexample.) -/
theorem singlePublished_of_safeReach (s : ContentState) (h : SafeReach s) :
    countPublished s.versions ≤ 1 :=
  (inv_of_safeReach h).2

/-- Witness for singlePublished_of_safeReach on a concrete two-step
reachable state (create then publish). -/
theorem singlePublished_of_safeReach_witness :
    countPublished (applyOp (Op.publish 1 "alice" "t2")
      (applyOp (Op.create "hello" "" "t1") initialData)).versions ≤ 1 :=
  singlePublished_of_safeReach _
    (SafeReach.step _ _ (SafeReach.step _ _ SafeReach.init True.intro) True.intro)

/- ## Claim C4 -/

/-- Claim C4 counterexample: deleting version 1 out of the aggregate that
still holds a publish record for it succeeds but leaves that publish record
in place — deletion does not cascade to the publish history. -/
theorem deleteVersion_keeps_publish_history_cex :
    deleteVersion 1 exPreDel = Except.ok exDelHist
      ∧ exDelHist.versions.map (fun v => v.id) = [2]
      ∧ exDelHist.publishHistory.map (fun r => r.versionId) = [1, 2] :=
  ⟨rfl, rfl, rfl⟩

/-- Claim C4 (amended): when deleteVersion(v) succeeds, the resulting state
contains no tag whose versionId equals v; the version list loses exactly the
first version carrying id v and the tag map loses exactly the tags bound to
v, everything else unchanged; the publish history is left entirely
unchanged (publish records referencing v are NOT removed). -/
theorem deleteVersion_frame (i : Nat) (s s2 : ContentState)
    (h : deleteVersion i s = Except.ok s2) :
    s2.versions = s.versions.eraseP (fun v => v.id = i)
  ∧ s2.tags = s.tags.filter (fun p => ¬ p.2.versionId = i)
  ∧ (∀ p ∈ s2.tags, p.2.versionId ≠ i)
  ∧ s2.publishHistory = s.publishHistory := by
  obtain ⟨tgt, hf, hp⟩ := deleteVersion_ok_inv h
  obtain ⟨s3, hok, hv, ht, hh, _, _⟩ := deleteVersion_ok_char hf hp
  rw [h] at hok
  have hs : s2 = s3 := Except.ok.inj hok
  subst hs
  refine ⟨hv, ht, ?_, hh⟩
  intro p hp2
  rw [ht] at hp2
  have := List.of_mem_filter hp2
  simpa using this

/-- Witness for deleteVersion_frame at the concrete deletion of version 1:
the publish history survives unchanged. -/
theorem deleteVersion_frame_witness :
    exDelHist.publishHistory = exPreDel.publishHistory :=
  (deleteVersion_frame 1 exPreDel exDelHist rfl).2.2.2

/- ## Claim C5 -/

/-- Claim C5: publishVersion fails with the not-found error when no version
with the given id exists; on success it returns a publish record carrying
the version id and publisher, appends exactly that one record to the
publish history, makes the target the current version, copies the target
content, and leaves every version published exactly when its id is the
target id (so any other previously published version is demoted to draft). -/
theorem publishVersion_spec (s : ContentState) (vid : Nat) (pb now : String) :
    ((∀ v ∈ s.versions, v.id ≠ vid) →
        publishVersion vid pb now s = Except.error ContentError.versionNotFound)
  ∧ (∀ tgt, s.versions.find? (fun v => v.id = vid) = some tgt →
      ∃ pr s2, publishVersion vid pb now s = Except.ok (pr, s2)
        ∧ pr.versionId = vid
        ∧ pr.publishedBy = pb
        ∧ s2.publishHistory = s.publishHistory ++ [pr]
        ∧ s2.currentVersion = vid
        ∧ s2.content = some tgt.content
        ∧ (∀ v ∈ s2.versions,
            v.status = if v.id = vid then VersionStatus.published else VersionStatus.draft)
        ∧ s2.versions.map (fun v => v.id) = s.versions.map (fun v => v.id)) := by
  constructor
  · intro h
    exact publishVersion_err_of_absent h
  · intro tgt hf
    refine ⟨_, _, publishVersion_ok_char pb now hf, rfl, rfl, rfl, rfl, rfl, ?_, ?_⟩
    · intro v hv
      rcases List.mem_map.mp hv with ⟨u, hu, rfl⟩
      by_cases hcase : u.id = vid <;> simp [hcase]
    · rw [List.map_map]
      rfl

/-- Witness for publishVersion_spec: publishing an absent id fails with the
not-found error and publishing the existing version 1 does not. -/
theorem publishVersion_spec_witness :
    publishVersion 5 "alice" "tw" exS1 = Except.error ContentError.versionNotFound
  ∧ publishVersion 1 "alice" "tw" exS1 ≠ Except.error ContentError.versionNotFound := by
  constructor
  · exact (publishVersion_spec exS1 5 "alice" "tw").1 (by decide)
  · obtain ⟨pr, s2, h1, _⟩ := (publishVersion_spec exS1 1 "alice" "tw").2
      ⟨1, "a", "t1", "", VersionStatus.draft, none⟩ rfl
    rw [h1]
    exact fun hcon => Except.noConfusion hcon

/- ## Claim C6 -/

/-- Claim C6: revertTo fails with the not-found error when no version with
the given id exists; otherwise it appends exactly one new version whose
content equals the target content and whose message records the
reverted-from id, leaving every stored version (the target included), the
tags, the publish history, the current pointer, and the current content
untouched. -/
theorem revertTo_spec (s : ContentState) (vid : Nat) (now : String) :
    ((∀ v ∈ s.versions, v.id ≠ vid) →
        revertTo vid now s = Except.error ContentError.versionNotFound)
  ∧ (∀ tgt, s.versions.find? (fun v => v.id = vid) = some tgt →
      ∃ nv s2, revertTo vid now s = Except.ok (nv, s2)
        ∧ s2.versions = s.versions ++ [nv]
        ∧ nv.content = tgt.content
        ∧ nv.message = "Reverted to version " ++ toString vid
        ∧ tgt ∈ s2.versions
        ∧ s2.tags = s.tags
        ∧ s2.publishHistory = s.publishHistory
        ∧ s2.currentVersion = s.currentVersion
        ∧ s2.content = s.content) := by
  constructor
  · exact fun h => revertTo_err_of_absent h
  · intro tgt hf
    obtain ⟨nv, s2, hok, hs2, hid, hcont, hst, hmsg⟩ := revertTo_ok_char now hf
    refine ⟨nv, s2, hok, ?_, hcont, hmsg, ?_, ?_, ?_, ?_, ?_⟩
    · rw [hs2]
    · rw [hs2]
      exact List.mem_append_left _ (List.mem_of_find?_eq_some hf)
    · rw [hs2]
    · rw [hs2]
    · rw [hs2]
    · rw [hs2]

/-- Witness for revertTo_spec: reverting to an absent id fails with the
not-found error and reverting to the existing version 1 does not. -/
theorem revertTo_spec_witness :
    revertTo 7 "t9" exS1 = Except.error ContentError.versionNotFound
  ∧ revertTo 1 "t9" exS1 ≠ Except.error ContentError.versionNotFound := by
  constructor
  · exact (revertTo_spec exS1 7 "t9").1 (by decide)
  · obtain ⟨nv, s2, h1, _⟩ := (revertTo_spec exS1 1 "t9").2
      ⟨1, "a", "t1", "", VersionStatus.draft, none⟩ rfl
    rw [h1]
    exact fun hcon => Except.noConfusion hcon

/- ## Claim C7 -/

/-- Claim C7: unpublishVersion fails with the not-found error when no
version with the given id exists; on success it returns the target with
status reset to draft, leaves every version with the target id in draft
state, removes exactly the publish records carrying the target id from the
publish history, and clears the current pointer and content when the target
was the current version. -/
theorem unpublishVersion_spec (s : ContentState) (vid : Nat) :
    ((∀ v ∈ s.versions, v.id ≠ vid) →
        unpublishVersion vid s = Except.error ContentError.versionNotFound)
  ∧ (∀ tgt, s.versions.find? (fun v => v.id = vid) = some tgt →
      ∃ rv s2, unpublishVersion vid s = Except.ok (rv, s2)
        ∧ rv = { tgt with status := VersionStatus.draft }
        ∧ (∀ v ∈ s2.versions, v.id = vid → v.status = VersionStatus.draft)
        ∧ s2.publishHistory = s.publishHistory.filter (fun r => ¬ r.versionId = vid)
        ∧ (∀ r ∈ s2.publishHistory, r.versionId ≠ vid)
        ∧ (s.currentVersion = vid → s2.currentVersion = 0 ∧ s2.content = none)) := by
  constructor
  · exact fun h => unpublishVersion_err_of_absent h
  · intro tgt hf
    obtain ⟨s2, hok, hv, htags, hh, hcur, hcont⟩ := unpublishVersion_ok_char hf
    refine ⟨_, s2, hok, rfl, ?_, hh, ?_, ?_⟩
    · intro v hv2 hvid
      rw [hv] at hv2
      rcases List.mem_map.mp hv2 with ⟨u, hu, rfl⟩
      by_cases hcase : u.id = vid
      · simp [hcase]
      · exact absurd hvid hcase
    · intro r hr
      rw [hh] at hr
      have := List.of_mem_filter hr
      simpa using this
    · intro hcv
      exact ⟨by rw [hcur, if_pos hcv], by rw [hcont, if_pos hcv]⟩

/-- Witness for unpublishVersion_spec: unpublishing an absent id fails with
the not-found error and unpublishing the published version 1 does not. -/
theorem unpublishVersion_spec_witness :
    unpublishVersion 3 exPub = Except.error ContentError.versionNotFound
  ∧ unpublishVersion 1 exPub ≠ Except.error ContentError.versionNotFound := by
  constructor
  · exact (unpublishVersion_spec exPub 3).1 (by decide)
  · obtain ⟨rv, s2, h1, _⟩ := (unpublishVersion_spec exPub 1).2
      ⟨1, "a", "t1", "", VersionStatus.published, none⟩ rfl
    rw [h1]
    exact fun hcon => Except.noConfusion hcon

/- ## Claim C8 -/

/-- Claim C8: deleteVersion fails with the not-found error exactly when no
version with the given id exists; it fails with the cannot-delete-published
error when the version exists and is published; with any other status it
succeeds, and when the deleted version was the current one the current
pointer is reset to 0 and the content to empty. -/
theorem deleteVersion_error_spec (i : Nat) (s : ContentState) :
    (deleteVersion i s = Except.error ContentError.versionNotFound ↔
        ∀ v ∈ s.versions, v.id ≠ i)
  ∧ (∀ tgt, s.versions.find? (fun v => v.id = i) = some tgt →
      (tgt.status = VersionStatus.published →
          deleteVersion i s = Except.error ContentError.cannotDeletePublished)
      ∧ (¬ tgt.status = VersionStatus.published →
          ∃ s2, deleteVersion i s = Except.ok s2
            ∧ (s.currentVersion = i → s2.currentVersion = 0 ∧ s2.content = none))) := by
  constructor
  · constructor
    · intro h v hv hvid
      cases hfind : s.versions.find? (fun v => v.id = i) with
      | none =>
          have := List.find?_eq_none.mp hfind v hv
          simp [hvid] at this
      | some tgt =>
          by_cases hp : tgt.status = VersionStatus.published
          · rw [deleteVersion_conflict hfind hp] at h
            exact ContentError.noConfusion (Except.error.inj h)
          · obtain ⟨s2, hok, _⟩ := deleteVersion_ok_char hfind hp
            rw [hok] at h
            exact Except.noConfusion h
    · intro h
      exact deleteVersion_err_of_absent h
  · intro tgt hf
    constructor
    · intro hp
      exact deleteVersion_conflict hf hp
    · intro hp
      obtain ⟨s2, hok, _, _, _, hcur, hcont⟩ := deleteVersion_ok_char hf hp
      exact ⟨s2, hok, fun hcv => ⟨by rw [hcur, if_pos hcv], by rw [hcont, if_pos hcv]⟩⟩

/-- Witness for deleteVersion_error_spec: deleting the published version 1
fails with the conflict error and deleting an absent id fails with the
not-found error. -/
theorem deleteVersion_error_spec_witness :
    deleteVersion 1 exPub = Except.error ContentError.cannotDeletePublished
  ∧ deleteVersion 9 exS1 = Except.error ContentError.versionNotFound := by
  constructor
  · exact ((deleteVersion_error_spec 1 exPub).2
      ⟨1, "a", "t1", "", VersionStatus.published, none⟩ rfl).1 rfl
  · exact (deleteVersion_error_spec 9 exS1).1.mpr (by decide)

/- ## Claim C9 -/

/-- Claim C9 counterexample: renaming the tag "a" to "b" succeeds but the
returned tag has no updatedAt value — the implementation does not set the
updatedAt field on rename. -/
theorem updateTag_no_updatedAt_cex :
    Except.map (fun r => r.1.updatedAt) (updateTag "a" "b" exTagged) = Except.ok none :=
  rfl

/-- Claim C9 (amended): updateTag fails with the tag-not-found error when no
tag with the old name exists, and with the name-conflict error when a tag
with the new name already exists; on success the resulting tag keeps the
original versionId and createdAt, carries the new name, and carries the
original updatedAt unchanged (the field is NOT set by the rename). -/
theorem updateTag_spec (s : ContentState) (oldName newName : String) :
    (objGet s.tags oldName = none →
        updateTag oldName newName s = Except.error ContentError.tagNotFound)
  ∧ (∀ t0, objGet s.tags oldName = some t0 →
      ((∃ t1, objGet s.tags newName = some t1) →
          updateTag oldName newName s = Except.error ContentError.newTagNameExists)
      ∧ (objGet s.tags newName = none →
          ∃ s2, updateTag oldName newName s = Except.ok ({ t0 with name := newName }, s2)
            ∧ ({ t0 with name := newName } : Tag).versionId = t0.versionId
            ∧ ({ t0 with name := newName } : Tag).createdAt = t0.createdAt
            ∧ ({ t0 with name := newName } : Tag).updatedAt = t0.updatedAt
            ∧ s2.tags = objSet (objDel s.tags oldName) newName { t0 with name := newName })) := by
  constructor
  · intro h
    unfold updateTag
    rw [h]
  · intro t0 h0
    constructor
    · intro h1
      obtain ⟨t1, h1⟩ := h1
      simp only [updateTag, h0, h1]
    · intro h1
      simp only [updateTag, h0, h1]
      exact ⟨_, rfl, trivial, trivial, trivial, rfl⟩

/-- Witness for updateTag_spec: a missing old name fails with the
tag-not-found error, renaming onto an existing name (itself) fails with the
conflict error, and the rename of "a" to "b" succeeds. -/
theorem updateTag_spec_witness :
    updateTag "zz" "b" exTagged = Except.error ContentError.tagNotFound
  ∧ updateTag "a" "a" exTagged = Except.error ContentError.newTagNameExists
  ∧ updateTag "a" "b" exTagged ≠ Except.error ContentError.tagNotFound := by
  refine ⟨?_, ?_, ?_⟩
  · exact (updateTag_spec exTagged "zz" "b").1 rfl
  · exact ((updateTag_spec exTagged "a" "a").2 ⟨"a", 1, "t2", none⟩ rfl).1
      ⟨⟨"a", 1, "t2", none⟩, rfl⟩
  · obtain ⟨s2, h1, _⟩ := ((updateTag_spec exTagged "a" "b").2 ⟨"a", 1, "t2", none⟩ rfl).2 rfl
    rw [h1]
    exact fun hcon => Except.noConfusion hcon

/- ## Claim C10 -/

/-- Claim C10: unpublishVersion does not require its target to be published:
on a state whose versions with the given id are all drafts and whose publish
history holds no record for that id, the call succeeds, returns that draft
version unchanged, and leaves the version list, the tags, and the publish
history unchanged. -/
theorem unpublishVersion_draft_noop (s : ContentState) (vid : Nat) (tgt : Version)
    (hf : s.versions.find? (fun v => v.id = vid) = some tgt)
    (hdraft : ∀ v ∈ s.versions, v.id = vid → v.status = VersionStatus.draft)
    (hhist : ∀ r ∈ s.publishHistory, r.versionId ≠ vid) :
    ∃ s2, unpublishVersion vid s = Except.ok (tgt, s2)
      ∧ s2.versions = s.versions
      ∧ s2.tags = s.tags
      ∧ s2.publishHistory = s.publishHistory := by
  obtain ⟨s2, hok, hv, htags, hh, _, _⟩ := unpublishVersion_ok_char hf
  have htgt : { tgt with status := VersionStatus.draft } = tgt := by
    have hst : tgt.status = VersionStatus.draft :=
      hdraft tgt (List.mem_of_find?_eq_some hf) (find?_id_some_id hf)
    cases tgt
    simp_all
  have hveq : s.versions.map (fun v =>
      { v with status := if v.id = vid then VersionStatus.draft else v.status })
      = s.versions := by
    have hpt : ∀ v ∈ s.versions, (fun v : Version =>
        { v with status := if v.id = vid then VersionStatus.draft else v.status }) v = id v := by
      intro v hv2
      by_cases hcase : v.id = vid
      · have hst := hdraft v hv2 hcase
        cases v
        simp_all
      · cases v
        simp_all
    rw [List.map_congr_left hpt, List.map_id]
  have hhisteq : s.publishHistory.filter (fun r => ¬ r.versionId = vid)
      = s.publishHistory := by
    rw [List.filter_eq_self]
    intro r hr
    simpa using hhist r hr
  rw [htgt] at hok
  refine ⟨s2, hok, ?_, htags, ?_⟩
  · rw [hv, hveq]
  · rw [hh, hhisteq]

/-- Witness for unpublishVersion_draft_noop: unpublishing the never-published
draft version 1 succeeds and returns it unchanged. -/
theorem unpublishVersion_draft_noop_witness :
    Except.map (fun p => p.1) (unpublishVersion 1 exS1)
      = Except.ok (⟨1, "a", "t1", "", VersionStatus.draft, none⟩ : Version) := by
  obtain ⟨s2, h1, _⟩ := unpublishVersion_draft_noop exS1 1
    ⟨1, "a", "t1", "", VersionStatus.draft, none⟩ rfl (by decide) (by decide)
  rw [h1]
  rfl

end ContentVersion
